import Mathlib

/-!
Verification of go-peer-monitor: a shallow embedding of `main.go`.

The program polls a Geth node with the `admin_peers` RPC every ten seconds,
prints the peers it got, and publishes their number as the Prometheus gauge
`geth_peer_count`.

Embedding conventions.

* A Go slice that may be `nil` is an `Option (List α)`: `none` is the nil slice.
* A Go `error` that may be `nil` is an `Option GoError`.
* Standard output is the `String` of everything written to it so far; the
  standard logger is the list of messages passed to it (the date and time the
  logger puts in front of each message is not modelled).
* What lies outside the program (the environment, the RPC endpoint, the clock,
  `encoding/json`) is a parameter, collected in `World`.
* The model is that of the main goroutine. The goroutine that serves
  `/metrics` (lines 51-57) shares only the gauge with it and is not modelled.
-/

set_option maxRecDepth 100000

namespace PeerMonitor

/-! ## Go values -/

/-- Go `error` values. `base` is an error without a cause; `wrap` is the
`*fmt.wrapError` that `fmt.Errorf` builds for a `%w` verb. -/
inductive GoError where
  | base (msg : String)
  | wrap (msg : String) (cause : GoError)
  deriving DecidableEq, Repr

/-- The method `Error()` of an error. -/
def GoError.Error : GoError → String
  | .base msg => msg
  | .wrap msg _ => msg

/-- The method `Unwrap()` of an error, as `errors.Unwrap` sees it. -/
def GoError.Unwrap : GoError → Option GoError
  | .base _ => none
  | .wrap _ cause => some cause

/-- The call `fmt.Errorf(pfx + "%w", err)`: the message is the format with the
error's text in place of the verb, and the result wraps `err`. -/
def fmtErrorf (pfx : String) (err : GoError) : GoError :=
  .wrap (pfx ++ err.Error) err

/-- A Go slice: `none` is `nil`. -/
abbrev Slice (α : Type) := Option (List α)

/-- The builtin `len` on a slice; `len(nil)` is `0`. -/
def len {α : Type} : Slice α → Nat
  | none => 0
  | some xs => xs.length

/-- The elements a `for ... range` loop visits; none for a nil slice. -/
def elems {α : Type} : Slice α → List α
  | none => []
  | some xs => xs

/-- The conversion `float64(n)` of a non-negative `int`, the result given by its
exact value: integers below `2^53` are representable, larger ones are rounded
to 53 significant bits, ties to even. -/
def float64 (n : Nat) : Nat :=
  if n < 2 ^ 53 then n
  else
    let e := Nat.log2 n - 52
    let q := n / 2 ^ e
    let r := n % 2 ^ e
    if 2 ^ e < 2 * r ∨ (2 * r = 2 ^ e ∧ q % 2 = 1) then (q + 1) * 2 ^ e else q * 2 ^ e

/-- The verb `%d` applied to a non-negative `int`. -/
def fmtInt (n : Nat) : String := Nat.repr n

/-- The verb `%v` applied to a `[]string`: the elements between brackets,
separated by one space. -/
def fmtStrings (xs : List String) : String :=
  "[" ++ " ".intercalate xs ++ "]"

/-! ## Data model (`main.go`, lines 17-26) -/

/-- The anonymous struct of the field `Network`. -/
structure NetworkInfo where
  LocalAddress : String
  RemoteAddress : String
  deriving DecidableEq, Repr

/-- The struct `PeerInfo`. `V` is the type of the values a
`map[string]interface{}` holds; the map is an association list read with
`List.lookup`. -/
structure PeerInfo (V : Type) where
  ID : String
  Name : String
  Caps : List String
  Network : NetworkInfo
  Protocols : List (String × V)

/-- The outcome of `client.CallContext(ctx, &peers, method)`: what the call
left in the variable `peers` (which starts as nil and may have been filled in
part when decoding failed) and the error it returned. -/
structure CallResult (V : Type) where
  result : Slice (PeerInfo V)
  err : Option GoError

/-- An RPC client, as the outcome of a call of each method name. Timeouts,
broken connections and undecodable responses all show as a non-nil `err`. -/
abbrev Client (V : Type) := String → CallResult V

/-- The type of `json.MarshalIndent(v, pfx, indent)`: the bytes, or an error
(in which case the library returns nil bytes). -/
abbrev Marshal (V : Type) := V → String → String → Except GoError String

/-! ## `getPeers` (lines 76-87) -/

/-- The function `getPeers`. -/
def getPeers {V : Type} (client : Client V) : Slice (PeerInfo V) × Option GoError :=
  let call := client "admin_peers"
  match call.err with
  | some err => (none, some (fmtErrorf "failed to call admin_peers: " err))
  | none => (call.result, none)

/-! ## `displayPeers` (lines 89-109) -/

/-- Lines 101-104: what the `if` on the `"eth"` key writes. The error of
`json.MarshalIndent` is assigned to `_`; with an error `ethData` is nil and
`string(ethData)` is empty. -/
def ethBlock {V : Type} (marshalIndent : Marshal V) (peer : PeerInfo V) : String :=
  match peer.Protocols.lookup "eth" with
  | some ethProtocol =>
    let ethData :=
      match marshalIndent ethProtocol "  " "  " with
      | .ok data => data
      | .error _ => ""
    "  ETH Protocol: " ++ ethData ++ "\n"
  | none => ""

/-- Lines 95-99: the five lines every iteration writes first. -/
def peerHead {V : Type} (i : Nat) (peer : PeerInfo V) : String :=
  "Peer " ++ fmtInt (i + 1) ++ ":\n" ++
  ("  ID: " ++ peer.ID ++ "\n") ++
  ("  Name: " ++ peer.Name ++ "\n") ++
  ("  Remote Address: " ++ peer.Network.RemoteAddress ++ "\n") ++
  ("  Capabilities: " ++ fmtStrings peer.Caps ++ "\n")

/-- Lines 95-106: what one iteration of the loop writes for index `i`. -/
def peerSection {V : Type} (marshalIndent : Marshal V) (i : Nat) (peer : PeerInfo V) : String :=
  peerHead i peer ++ ethBlock marshalIndent peer ++ "\n"

/-- Lines 94-107: the `range` loop, from index `i` on, appending to what was
written so far. -/
def rangeLoop {V : Type} (marshalIndent : Marshal V) :
    List (PeerInfo V) → Nat → String → String
  | [], _, out => out
  | peer :: rest, i, out =>
    rangeLoop marshalIndent rest (i + 1) (out ++ peerSection marshalIndent i peer)

/-- Line 91: the header, with the formatted time. -/
def headerLine (timestamp : String) : String :=
  "\n=== Connected Peers at " ++ timestamp ++ " ===\n"

/-- Line 92: the total, followed by an empty line. -/
def totalLine (n : Nat) : String :=
  "Total Peers: " ++ fmtInt n ++ "\n\n"

/-- Line 108: the closing line. -/
def closingLine : String := "================================\n"

/-- The function `displayPeers`: the text it writes to standard output.
`timestamp` is `time.Now().Format("2006-01-02 15:04:05")`. -/
def displayPeers {V : Type} (marshalIndent : Marshal V) (timestamp : String)
    (peers : Slice (PeerInfo V)) : String :=
  let out := headerLine timestamp
  let out := out ++ totalLine (len peers)
  let out := rangeLoop marshalIndent (elems peers) 0 out
  out ++ closingLine

/-! ## `main` (lines 39-74) -/

/-- What the process can observe of itself: the gauge `geth_peer_count` (a
float64 that only ever holds `0` or `float64(len(peers))`, given by its exact
value), standard output, and the messages given to the logger. -/
structure Monitor where
  gauge : Nat
  stdout : String
  log : List String
  deriving DecidableEq, Repr

/-- Lines 64-70: one pass through the body of the `for` loop, up to the wait. -/
def loopBody {V : Type} (marshalIndent : Marshal V) (client : Client V) (now : String)
    (m : Monitor) : Monitor :=
  match getPeers client with
  | (_, some err) => { m with log := m.log ++ ["Error fetching peers: " ++ err.Error] }
  | (peers, none) =>
    { m with
      stdout := m.stdout ++ displayPeers marshalIndent now peers
      gauge := float64 (len peers) }

/-- Where the main goroutine is: about to call `getPeers` (line 64), blocked on
the ticker (line 72), or gone after `log.Fatalf` (exit status 1). -/
inductive Control where
  | tick
  | wait
  | exited (code : Nat)
  deriving DecidableEq, Repr

/-- The state of the process. `dials` lists the URLs given to `rpc.Dial`;
`cycleNo` counts the ticks received. -/
structure Proc where
  ctl : Control
  cycleNo : Nat
  dials : List String
  mon : Monitor
  deriving DecidableEq, Repr

/-- The world outside the program. `environ` is the process environment
(`none`: variable not set), `dial` the error `rpc.Dial` returns for a URL,
`rpc n` how the endpoint answers during cycle `n`, `clock n` the formatted
time in cycle `n`. -/
structure World (V : Type) where
  environ : String → Option String
  dial : String → Option GoError
  rpc : Nat → Client V
  clock : Nat → String
  marshalIndent : Marshal V

/-- The call `os.Getenv(key)`: empty when the variable is not set. -/
def osGetenv (environ : String → Option String) (key : String) : String :=
  (environ key).getD ""

/-- The address used when `GETH_RPC_URL` gives none (line 42). -/
def defaultURL : String := "http://geth.ethereum.svc.cluster.local:8545"

/-- Lines 40-43: the URL that is dialled. -/
def gethURL (environ : String → Option String) : String :=
  let gethURL := osGetenv environ "GETH_RPC_URL"
  if gethURL = "" then defaultURL else gethURL

/-- The state in which the `for` loop is entered. -/
def loopEntry (dials : List String) (m : Monitor) : Proc :=
  { ctl := .tick, cycleNo := 0, dials := dials, mon := m }

/-- Lines 40-61: startup. A failed dial is fatal; otherwise the loop is entered
with the gauge at zero. -/
def mainStart {V : Type} (w : World V) : Proc :=
  let url := gethURL w.environ
  match w.dial url with
  | some err =>
    { ctl := .exited 1, cycleNo := 0, dials := [url],
      mon := { gauge := 0, stdout := "", log := ["Failed to connect to Geth: " ++ err.Error] } }
  | none =>
    loopEntry [url] { gauge := 0, stdout := "", log := ["Starting peer monitoring..."] }

/-- One move of the main goroutine: at `tick` the loop body runs and the
goroutine blocks on the ticker; at `wait` a tick arrives and the loop goes
round; an exited process stays exited. -/
def step {V : Type} (w : World V) (p : Proc) : Proc :=
  match p.ctl with
  | .tick =>
    { p with
      ctl := .wait
      mon := loopBody w.marshalIndent (w.rpc p.cycleNo) (w.clock p.cycleNo) p.mon }
  | .wait => { p with ctl := .tick, cycleNo := p.cycleNo + 1 }
  | .exited _ => p

/-- One polling cycle from a tick: the loop body, then the wait for the next
tick. -/
def cycle {V : Type} (w : World V) (p : Proc) : Proc :=
  step w (step w p)

/-- The text `sub` occurs in `text`. -/
def occursIn (sub text : String) : Prop :=
  sub.data <:+: text.data

instance (sub text : String) : Decidable (occursIn sub text) := by
  unfold occursIn; infer_instance

/-- The sections of a rendering, as the specification lists them: one for
each record, in snapshot order, the record at position `i` (from zero) under
the number `i + 1`. -/
def peerSections {V : Type} (marshalIndent : Marshal V) (peers : List (PeerInfo V)) :
    List String :=
  peers.enum.map fun ip => peerSection marshalIndent ip.1 ip.2

/-! ## A model of `encoding/json` for the concrete scenarios

The theorems below hold for every `marshalIndent`. The scenarios need one to
compute with: `jsonMarshalIndent` follows `json.MarshalIndent` on the values
listed in `Value`. -/

/-- Values an `interface{}` can hold: what decoding JSON produces (numbers
restricted to integers below `1e21` in magnitude, which the encoder writes
without fraction or exponent), and two values the encoder rejects, a
`chan int` and a `func()`. -/
inductive Value where
  | null
  | bool (b : Bool)
  | num (n : Int)
  | str (s : String)
  | arr (items : List Value)
  | obj (fields : List (String × Value))
  | chan
  | func

/-- The hexadecimal digit of `n`, in lower case. -/
def hexDigit (n : Nat) : Char := "0123456789abcdef".data.getD n '0'

/-- How the encoder writes one character of a string (HTML escaping on, as in
`json.Marshal`; backspace and form feed as Go 1.22 and later write them). -/
def escapeChar (c : Char) : String :=
  if c = '"' then "\\\""
  else if c = '\\' then "\\\\"
  else if c = '\n' then "\\n"
  else if c = '\r' then "\\r"
  else if c = '\t' then "\\t"
  else if c.toNat = 8 then "\\b"
  else if c.toNat = 12 then "\\f"
  else if c.toNat < 32 ∨ c = '<' ∨ c = '>' ∨ c = '&' then
    "\\u00" ++ String.mk [hexDigit (c.toNat / 16), hexDigit (c.toNat % 16)]
  else if c.toNat = 0x2028 then "\\u2028"
  else if c.toNat = 0x2029 then "\\u2029"
  else String.mk [c]

/-- A string as a JSON string literal. -/
def quote (s : String) : String :=
  "\"" ++ String.join (s.data.map escapeChar) ++ "\""

/-- The line break of indented output: a new line, the prefix, and `depth`
copies of the indent. -/
def newline (pfx indent : String) (depth : Nat) : String :=
  "\n" ++ pfx ++ String.join (List.replicate depth indent)

/-- Insertion of an encoded map entry by key order; of two entries with one
key the one met first by `List.lookup` stays. -/
def insertField (f : String × String) : List (String × String) → List (String × String)
  | [] => [f]
  | g :: rest =>
    if f.1 = g.1 then f :: rest
    else if f.1 < g.1 then f :: g :: rest
    else g :: insertField f rest

/-- The entries of a map in the order the encoder writes them: sorted by key. -/
def sortFields (fs : List (String × String)) : List (String × String) :=
  fs.foldr insertField []

mutual
/-- The indented encoding of a value nested `depth` levels deep. -/
def render (pfx indent : String) (depth : Nat) : Value → Except GoError String
  | .null => .ok "null"
  | .bool b => .ok (if b then "true" else "false")
  | .num n => .ok (toString n)
  | .str s => .ok (quote s)
  | .arr items =>
    match renderItems pfx indent (depth + 1) items with
    | .error e => .error e
    | .ok [] => .ok "[]"
    | .ok texts =>
      .ok ("[" ++ newline pfx indent (depth + 1) ++
        ("," ++ newline pfx indent (depth + 1)).intercalate texts ++
        newline pfx indent depth ++ "]")
  | .obj fields =>
    match renderFields pfx indent (depth + 1) fields with
    | .error e => .error e
    | .ok [] => .ok "\x7b\x7d"
    | .ok texts =>
      .ok ("\x7b" ++ newline pfx indent (depth + 1) ++
        ("," ++ newline pfx indent (depth + 1)).intercalate
          ((sortFields texts).map fun kv => quote kv.1 ++ ": " ++ kv.2) ++
        newline pfx indent depth ++ "\x7d")
  | .chan => .error (.base "json: unsupported type: chan int")
  | .func => .error (.base "json: unsupported type: func()")
/-- The encodings of the elements of an array. -/
def renderItems (pfx indent : String) (depth : Nat) : List Value → Except GoError (List String)
  | [] => .ok []
  | v :: rest =>
    match render pfx indent depth v with
    | .error e => .error e
    | .ok t =>
      match renderItems pfx indent depth rest with
      | .error e => .error e
      | .ok ts => .ok (t :: ts)
/-- The keys of a map with the encodings of their values. -/
def renderFields (pfx indent : String) (depth : Nat) :
    List (String × Value) → Except GoError (List (String × String))
  | [] => .ok []
  | (k, v) :: rest =>
    match render pfx indent depth v with
    | .error e => .error e
    | .ok t =>
      match renderFields pfx indent depth rest with
      | .error e => .error e
      | .ok ts => .ok ((k, t) :: ts)
end

/-- The call `json.MarshalIndent(v, pfx, indent)` on a `Value`. -/
def jsonMarshalIndent : Marshal Value :=
  fun v pfx indent => render pfx indent 0 v

/-! ## Concrete scenarios -/

/-- A peer whose `eth` entry is `\x7b"version": 66\x7d`. -/
def peerA : PeerInfo Value :=
  { ID := "a1", Name := "Geth/v1.13.0", Caps := ["eth/66", "snap/1"],
    Network := { LocalAddress := "10.0.0.1:30303", RemoteAddress := "203.0.113.5:30303" },
    Protocols := [("eth", .obj [("version", .num 66)])] }

/-- A peer with a protocol map that has no `eth` entry. -/
def peerB : PeerInfo Value :=
  { ID := "b2", Name := "Nethermind/v1.25", Caps := ["snap/1"],
    Network := { LocalAddress := "10.0.0.1:30303", RemoteAddress := "198.51.100.7:30303" },
    Protocols := [("snap", .obj [("version", .num 1)])] }

/-- A peer with no capabilities and a nil protocol map. -/
def peerC : PeerInfo Value :=
  { ID := "c3", Name := "erigon", Caps := [],
    Network := { LocalAddress := "10.0.0.1:30303", RemoteAddress := "192.0.2.9:30303" },
    Protocols := [] }

/-- The peer `peerA` with a channel in place of its `eth` entry: a payload
that `json.MarshalIndent` cannot encode. -/
def peerChan : PeerInfo Value := { peerA with Protocols := [("eth", .chan)] }

/-- The peer `peerA` with a function in place of its `eth` entry. -/
def peerFunc : PeerInfo Value := { peerA with Protocols := [("eth", .func)] }

/-- The time shown in the scenarios. -/
def noon : String := "2024-05-01 12:00:00"

/-- A world with `GETH_RPC_URL` not set, a dial that succeeds, and an endpoint
that answers every call with the three peers. -/
def calmWorld : World Value :=
  { environ := fun _ => none
    dial := fun _ => none
    rpc := fun _ _ => { result := some [peerA, peerB, peerC], err := none }
    clock := fun _ => noon
    marshalIndent := jsonMarshalIndent }

/-- A client whose call times out after one record was decoded. -/
def slowClient : Client Value :=
  fun _ => { result := some [peerA], err := some (.base "context deadline exceeded") }

/-- The world `calmWorld` with every call timing out. -/
def slowWorld : World Value := { calmWorld with rpc := fun _ => slowClient }

/-- A client that answers with one peer, the one whose `eth` entry is a channel. -/
def chanClient : Client Value :=
  fun _ => { result := some [peerChan], err := none }

/-- The world `calmWorld` started with `GETH_RPC_URL` set to a local node. -/
def localWorld : World Value :=
  { calmWorld with
    environ := fun key => if key = "GETH_RPC_URL" then some "http://127.0.0.1:8545" else none }

/-- A monitor whose gauge shows five peers. -/
def fivePeers : Monitor := { gauge := 5, stdout := "", log := [] }

/-! ## Lemmas -/

theorem float64_exact (n : Nat) (h : n ≤ 2 ^ 53) : float64 n = n := by
  unfold float64
  split
  · rfl
  · have hn : n = 2 ^ 53 := by omega
    subst hn
    have hlog : Nat.log2 (2 ^ 53) = 53 := by
      rw [Nat.log2_eq_log_two]
      exact Nat.log_pow (by decide) 53
    simp only [hlog]
    norm_num

theorem iterate_step_succ {V : Type} (w : World V) (k : Nat) (p : Proc) :
    (step w)^[k + 1] p = step w ((step w)^[k] p) :=
  Function.iterate_succ_apply' (step w) k p

theorem loop_control {V : Type} (w : World V) (dials : List String) (m : Monitor) (k : Nat) :
    ((step w)^[k] (loopEntry dials m)).ctl = .tick ∨
      ((step w)^[k] (loopEntry dials m)).ctl = .wait := by
  induction k with
  | zero => left; rfl
  | succ k ih =>
    rw [iterate_step_succ]
    rcases ih with h | h
    · right; simp [step, h]
    · left; simp [step, h]

theorem step_dials {V : Type} (w : World V) (p : Proc) : (step w p).dials = p.dials := by
  unfold step
  split <;> rfl

theorem step_tick {V : Type} (w : World V) (p : Proc) (h : p.ctl = .tick) :
    step w p = { p with
      ctl := .wait
      mon := loopBody w.marshalIndent (w.rpc p.cycleNo) (w.clock p.cycleNo) p.mon } := by
  unfold step
  rw [h]

theorem step_wait {V : Type} (w : World V) (p : Proc) (h : p.ctl = .wait) :
    step w p = { p with ctl := .tick, cycleNo := p.cycleNo + 1 } := by
  unfold step
  rw [h]

theorem cycle_tick {V : Type} (w : World V) (p : Proc) (h : p.ctl = .tick) :
    cycle w p = { p with
      ctl := .tick
      cycleNo := p.cycleNo + 1
      mon := loopBody w.marshalIndent (w.rpc p.cycleNo) (w.clock p.cycleNo) p.mon } := by
  unfold cycle
  rw [step_tick w p h, step_wait _ _ rfl]

theorem loopBody_ok {V : Type} (marshalIndent : Marshal V) (client : Client V) (now : String)
    (m : Monitor) (peers : Slice (PeerInfo V)) (h : getPeers client = (peers, none)) :
    loopBody marshalIndent client now m =
      { m with
        stdout := m.stdout ++ displayPeers marshalIndent now peers
        gauge := float64 (len peers) } := by
  unfold loopBody
  rw [h]

theorem loopBody_err {V : Type} (marshalIndent : Marshal V) (client : Client V) (now : String)
    (m : Monitor) (err : GoError) (h : (getPeers client).2 = some err) :
    loopBody marshalIndent client now m =
      { m with log := m.log ++ ["Error fetching peers: " ++ err.Error] } := by
  unfold loopBody
  rcases hg : getPeers client with ⟨ps, e⟩
  rw [hg] at h
  simp only at h
  subst h
  rfl

theorem occursIn_append_right (sub a b : String) (h : occursIn sub a) :
    occursIn sub (a ++ b) := by
  unfold occursIn at *
  rw [String.data_append]
  exact h.trans (List.prefix_append _ _).isInfix

theorem occursIn_append_left (sub a b : String) (h : occursIn sub b) :
    occursIn sub (a ++ b) := by
  unfold occursIn at *
  rw [String.data_append]
  exact h.trans (List.suffix_append _ _).isInfix

theorem occursIn_self (a : String) : occursIn a a := List.infix_refl _

theorem join_cons (a : String) (l : List String) :
    String.join (a :: l) = a ++ String.join l := by
  apply String.ext
  simp [String.data_join, String.data_append]

theorem rangeLoop_eq {V : Type} (marshalIndent : Marshal V) (peers : List (PeerInfo V))
    (i : Nat) (out : String) :
    rangeLoop marshalIndent peers i out =
      out ++ String.join ((peers.enumFrom i).map fun ip => peerSection marshalIndent ip.1 ip.2) := by
  induction peers generalizing i out with
  | nil =>
    apply String.ext
    simp [rangeLoop, String.data_join, String.data_append]
  | cons peer rest ih =>
    rw [rangeLoop, ih, List.enumFrom_cons, List.map_cons, join_cons, String.append_assoc]

theorem displayPeers_eq {V : Type} (marshalIndent : Marshal V) (timestamp : String)
    (peers : Slice (PeerInfo V)) :
    displayPeers marshalIndent timestamp peers =
      headerLine timestamp ++ totalLine (len peers) ++
        String.join (peerSections marshalIndent (elems peers)) ++ closingLine := by
  unfold displayPeers peerSections List.enum
  simp only [rangeLoop_eq]

theorem len_eq_length {α : Type} (xs : Slice α) : len xs = (elems xs).length := by
  cases xs <;> rfl

theorem peerSections_length {V : Type} (marshalIndent : Marshal V) (peers : List (PeerInfo V)) :
    (peerSections marshalIndent peers).length = peers.length := by
  simp [peerSections]

theorem peerSections_getElem? {V : Type} (marshalIndent : Marshal V)
    (peers : List (PeerInfo V)) (i : Nat) :
    (peerSections marshalIndent peers)[i]? =
      (peers[i]?).map fun peer => peerSection marshalIndent i peer := by
  unfold peerSections
  rw [List.getElem?_map, List.getElem?_enum]
  cases peers[i]? <;> rfl

theorem ethBlock_some {V : Type} (marshalIndent : Marshal V) (peer : PeerInfo V) (v : V)
    (h : peer.Protocols.lookup "eth" = some v) :
    ethBlock marshalIndent peer =
      "  ETH Protocol: " ++
        (match marshalIndent v "  " "  " with
          | .ok data => data
          | .error _ => "") ++ "\n" := by
  unfold ethBlock
  rw [h]

theorem ethBlock_none {V : Type} (marshalIndent : Marshal V) (peer : PeerInfo V)
    (h : peer.Protocols.lookup "eth" = none) : ethBlock marshalIndent peer = "" := by
  unfold ethBlock
  rw [h]

theorem append_ne_empty (a b : String) (h : a ≠ "") : a ++ b ≠ "" := by
  intro hab
  apply h
  have hd := congrArg String.data hab
  rw [String.data_append] at hd
  apply String.ext
  exact (List.append_eq_nil.mp hd).1

/-! ## The polling cycle -/

/-- C1. A cycle in which `getPeers` returns a snapshot and no error leaves the
gauge at the number of records of that snapshot (zero for a nil or empty one),
whatever it held before. The snapshot has at most `2^53` records, as every Go
slice of `PeerInfo` has: up to there `float64(len(peers))` is exact. -/
theorem successful_cycle_sets_gauge {V : Type} (w : World V) (p : Proc)
    (peers : Slice (PeerInfo V)) (htick : p.ctl = .tick)
    (hok : getPeers (w.rpc p.cycleNo) = (peers, none)) (hlen : len peers ≤ 2 ^ 53) :
    (step w p).mon.gauge = len peers ∧ (cycle w p).mon.gauge = len peers ∧
      (cycle w p).ctl = .tick := by
  rw [step_tick w p htick, cycle_tick w p htick, loopBody_ok _ _ _ _ peers hok]
  exact ⟨float64_exact _ hlen, float64_exact _ hlen, rfl⟩

/-- The scenario of C1: a gauge at five, an answer of three peers, a gauge at
three. -/
theorem successful_cycle_sets_gauge_witness :
    (cycle calmWorld (loopEntry [] fivePeers)).mon.gauge = 3 :=
  (successful_cycle_sets_gauge calmWorld (loopEntry [] fivePeers) (some [peerA, peerB, peerC])
    rfl rfl (by decide)).2.1

/-- C2. A cycle in which `getPeers` returns an error leaves the gauge (and
standard output) as they were and logs the error. -/
theorem failed_cycle_keeps_gauge {V : Type} (w : World V) (p : Proc) (err : GoError)
    (htick : p.ctl = .tick) (hfail : (getPeers (w.rpc p.cycleNo)).2 = some err) :
    (step w p).mon.gauge = p.mon.gauge ∧ (cycle w p).mon.gauge = p.mon.gauge ∧
      (cycle w p).mon.stdout = p.mon.stdout ∧
      (cycle w p).mon.log = p.mon.log ++ ["Error fetching peers: " ++ err.Error] := by
  rw [step_tick w p htick, cycle_tick w p htick, loopBody_err _ _ _ _ err hfail]
  exact ⟨rfl, rfl, rfl, rfl⟩

/-- The scenario of C2: a gauge at five stays at five after a call that timed
out. -/
theorem failed_cycle_keeps_gauge_witness :
    (cycle slowWorld (loopEntry [] fivePeers)).mon.gauge = 5 :=
  (failed_cycle_keeps_gauge slowWorld (loopEntry [] fivePeers)
    (fmtErrorf "failed to call admin_peers: " (.base "context deadline exceeded"))
    rfl rfl).2.1

/-- C3. The run loop has no terminal state. Whatever the endpoint answers, in
every state reached from the entry of the loop the process has not exited and
can move; from a tick it logs the error or prints the snapshot, blocks on the
ticker, and the next tick starts the next cycle. Only a failed dial at startup
ends the process. -/
theorem run_loop_never_terminal {V : Type} (w : World V) (dials : List String) (m : Monitor)
    (k : Nat) :
    (∀ code, ((step w)^[k] (loopEntry dials m)).ctl ≠ .exited code) ∧
    step w ((step w)^[k] (loopEntry dials m)) ≠ (step w)^[k] (loopEntry dials m) ∧
    (((step w)^[k] (loopEntry dials m)).ctl = .tick →
      (step w ((step w)^[k] (loopEntry dials m))).ctl = .wait ∧
      (cycle w ((step w)^[k] (loopEntry dials m))).ctl = .tick ∧
      (cycle w ((step w)^[k] (loopEntry dials m))).cycleNo =
        ((step w)^[k] (loopEntry dials m)).cycleNo + 1 ∧
      ((∃ err, (getPeers (w.rpc ((step w)^[k] (loopEntry dials m)).cycleNo)).2 = some err ∧
          (step w ((step w)^[k] (loopEntry dials m))).mon.log =
            ((step w)^[k] (loopEntry dials m)).mon.log ++
              ["Error fetching peers: " ++ err.Error]) ∨
        (∃ peers, getPeers (w.rpc ((step w)^[k] (loopEntry dials m)).cycleNo) = (peers, none) ∧
          (step w ((step w)^[k] (loopEntry dials m))).mon.stdout =
            ((step w)^[k] (loopEntry dials m)).mon.stdout ++
              displayPeers w.marshalIndent
                (w.clock ((step w)^[k] (loopEntry dials m)).cycleNo) peers))) ∧
    (((step w)^[k] (loopEntry dials m)).ctl = .wait →
      (step w ((step w)^[k] (loopEntry dials m))).ctl = .tick ∧
      (step w ((step w)^[k] (loopEntry dials m))).cycleNo =
        ((step w)^[k] (loopEntry dials m)).cycleNo + 1) ∧
    ((∃ code, (mainStart w).ctl = .exited code) ↔ ∃ err, w.dial (gethURL w.environ) = some err) := by
  generalize hs : (step w)^[k] (loopEntry dials m) = s
  have hctl : s.ctl = .tick ∨ s.ctl = .wait := hs ▸ loop_control w dials m k
  refine ⟨?_, ?_, ?_, ?_, ?_⟩
  · intro code hc
    rcases hctl with h | h <;> rw [h] at hc <;> cases hc
  · intro heq
    have hc : (step w s).ctl = s.ctl := by rw [heq]
    rcases hctl with h | h
    · rw [step_tick w s h, h] at hc
      cases hc
    · rw [step_wait w s h, h] at hc
      cases hc
  · intro h
    refine ⟨by rw [step_tick w s h], by rw [cycle_tick w s h], by rw [cycle_tick w s h], ?_⟩
    rcases hg : getPeers (w.rpc s.cycleNo) with ⟨peers, e⟩
    cases e with
    | none =>
      right
      exact ⟨peers, rfl, by rw [step_tick w s h, loopBody_ok _ _ _ _ peers hg]⟩
    | some err =>
      left
      have : (getPeers (w.rpc s.cycleNo)).2 = some err := by rw [hg]
      exact ⟨err, rfl, by rw [step_tick w s h, loopBody_err _ _ _ _ err this]⟩
  · intro h
    rw [step_wait w s h]
    exact ⟨rfl, rfl⟩
  · unfold mainStart
    constructor
    · rintro ⟨code, hc⟩
      cases hd : w.dial (gethURL w.environ) with
      | none =>
        simp only [hd, loopEntry] at hc
        cases hc
      | some err => exact ⟨err, rfl⟩
    · rintro ⟨err, he⟩
      exact ⟨1, by simp only [he]⟩

/-! ## `getPeers` -/

/-- C4. When the `admin_peers` call fails, `getPeers` returns the nil slice
(whatever the call left in `peers`) and an error that wraps the cause, whose
text is `failed to call admin_peers: ` followed by the cause; the error is nil
exactly when the call succeeds, and then the decoded slice is returned. -/
theorem getPeers_error_contract {V : Type} (client : Client V) :
    (∀ cause, (client "admin_peers").err = some cause →
      ∃ e, getPeers client = (none, some e) ∧ e.Unwrap = some cause ∧
        e.Error = "failed to call admin_peers: " ++ cause.Error ∧
        occursIn "admin_peers" e.Error) ∧
    ((getPeers client).2 = none ↔ (client "admin_peers").err = none) ∧
    ((client "admin_peers").err = none →
      getPeers client = ((client "admin_peers").result, none)) := by
  refine ⟨?_, ?_, ?_⟩
  · intro cause h
    refine ⟨fmtErrorf "failed to call admin_peers: " cause, ?_, rfl, rfl, ?_⟩
    · unfold getPeers
      simp only [h]
    · exact occursIn_append_right _ _ _ (by decide)
  · unfold getPeers
    rcases h : (client "admin_peers").err with _ | err
    · simp only [h]
    · simp only [h, reduceCtorEq]
  · intro h
    unfold getPeers
    simp only [h]

/-- The scenario of C4: the call timed out after one record was decoded; the
record is dropped and the error names `admin_peers`. -/
theorem getPeers_error_contract_witness :
    ∃ e, getPeers slowClient = (none, some e) ∧
      e.Unwrap = some (.base "context deadline exceeded") ∧
      e.Error = "failed to call admin_peers: " ++ "context deadline exceeded" ∧
      occursIn "admin_peers" e.Error :=
  (getPeers_error_contract slowClient).1 (.base "context deadline exceeded") rfl

/-! ## Startup -/

/-- C10. Startup dials one URL and the loop dials none: the value of
`GETH_RPC_URL` when the variable is set and not empty, and
`http://geth.ethereum.svc.cluster.local:8545` when it is not set or empty. -/
theorem dial_target_from_environment {V : Type} (w : World V) (k : Nat) :
    (mainStart w).dials = [gethURL w.environ] ∧
    ((step w)^[k] (mainStart w)).dials = [gethURL w.environ] ∧
    gethURL w.environ =
      (match w.environ "GETH_RPC_URL" with
        | some url => if url = "" then "http://geth.ethereum.svc.cluster.local:8545" else url
        | none => "http://geth.ethereum.svc.cluster.local:8545") := by
  have h0 : (mainStart w).dials = [gethURL w.environ] := by
    unfold mainStart
    rcases hd : w.dial (gethURL w.environ) with _ | err
    · simp only [hd, loopEntry]
    · simp only [hd]
  refine ⟨h0, ?_, ?_⟩
  · induction k with
    | zero => exact h0
    | succ k ih => rw [iterate_step_succ, step_dials, ih]
  · unfold gethURL osGetenv defaultURL
    cases w.environ "GETH_RPC_URL" <;> rfl

/-- The scenario of C10: with `GETH_RPC_URL` set, its value is dialled. -/
theorem dial_target_from_environment_witness :
    (mainStart localWorld).dials = ["http://127.0.0.1:8545"] :=
  (dial_target_from_environment localWorld 0).1

/-! ## `displayPeers` -/

/-- C5. For a snapshot of `n` records and any timestamp, the text of
`displayPeers` is the header, the line `Total Peers: n` and an empty line, `n`
sections, and the closing line; section `i` (from zero) is headed
`Peer i+1:` and shows the ID, name, remote address and capabilities of record
`i` of the snapshot, then its `eth` block and an empty line. -/
theorem displayPeers_layout {V : Type} (marshalIndent : Marshal V) (timestamp : String)
    (peers : Slice (PeerInfo V)) :
    displayPeers marshalIndent timestamp peers =
      "\n=== Connected Peers at " ++ timestamp ++ " ===\n" ++
        ("Total Peers: " ++ fmtInt (len peers) ++ "\n\n") ++
        String.join (peerSections marshalIndent (elems peers)) ++
        "================================\n" ∧
    (peerSections marshalIndent (elems peers)).length = len peers ∧
    (∀ i, (peerSections marshalIndent (elems peers))[i]? =
      ((elems peers)[i]?).map fun peer =>
        "Peer " ++ fmtInt (i + 1) ++ ":\n" ++
        ("  ID: " ++ peer.ID ++ "\n") ++
        ("  Name: " ++ peer.Name ++ "\n") ++
        ("  Remote Address: " ++ peer.Network.RemoteAddress ++ "\n") ++
        ("  Capabilities: " ++ fmtStrings peer.Caps ++ "\n") ++
        ethBlock marshalIndent peer ++ "\n") ∧
    occursIn ("Total Peers: " ++ fmtInt (len peers) ++ "\n")
      (displayPeers marshalIndent timestamp peers) := by
  refine ⟨displayPeers_eq marshalIndent timestamp peers, ?_, ?_, ?_⟩
  · rw [peerSections_length, len_eq_length]
  · intro i
    exact peerSections_getElem? marshalIndent (elems peers) i
  · rw [displayPeers_eq]
    apply occursIn_append_right
    apply occursIn_append_right
    apply occursIn_append_left
    unfold totalLine
    have h : "Total Peers: " ++ fmtInt (len peers) ++ "\n\n" =
        ("Total Peers: " ++ fmtInt (len peers) ++ "\n") ++ "\n" := by
      apply String.ext
      simp [String.data_append]
    rw [h]
    exact occursIn_append_right _ _ _ (occursIn_self _)

/-- The scenario of C5: three records give `Total Peers: 3` and the sections
`Peer 1:`, `Peer 2:`, `Peer 3:`, in the order of the snapshot. -/
theorem displayPeers_layout_witness :
    displayPeers jsonMarshalIndent noon (some [peerA, peerB, peerC]) =
      "\n=== Connected Peers at 2024-05-01 12:00:00 ===\n" ++
        "Total Peers: 3\n\n" ++
        String.join [peerSection jsonMarshalIndent 0 peerA, peerSection jsonMarshalIndent 1 peerB,
          peerSection jsonMarshalIndent 2 peerC] ++
        "================================\n" :=
  (displayPeers_layout jsonMarshalIndent noon (some [peerA, peerB, peerC])).1

/-- The text of the scenario of C5, in full. -/
theorem displayPeers_three_peers :
    displayPeers jsonMarshalIndent noon (some [peerA, peerB, peerC]) =
      "\n=== Connected Peers at 2024-05-01 12:00:00 ===\n" ++
      "Total Peers: 3\n\n" ++
      "Peer 1:\n  ID: a1\n  Name: Geth/v1.13.0\n  Remote Address: 203.0.113.5:30303\n" ++
      "  Capabilities: [eth/66 snap/1]\n" ++
      "  ETH Protocol: \x7b\n    \"version\": 66\n  \x7d\n\n" ++
      "Peer 2:\n  ID: b2\n  Name: Nethermind/v1.25\n  Remote Address: 198.51.100.7:30303\n" ++
      "  Capabilities: [snap/1]\n\n" ++
      "Peer 3:\n  ID: c3\n  Name: erigon\n  Remote Address: 192.0.2.9:30303\n" ++
      "  Capabilities: []\n\n" ++
      "================================\n" := by
  rfl

/-- C6. The section of a peer has an `ETH Protocol` block exactly when the
protocol map of the record has the key `eth`. With the key, the block is the
label followed by what `json.MarshalIndent` gives for the value of that entry
(for `\x7b"version": 66\x7d` it shows `"version": 66`); without it, nothing is
written for the block, and the rest of the section is the same either way. -/
theorem eth_block_iff_eth_key {V : Type} (marshalIndent : Marshal V) (i : Nat)
    (peer : PeerInfo V) :
    (ethBlock marshalIndent peer ≠ "" ↔ ∃ v, peer.Protocols.lookup "eth" = some v) ∧
    (∀ v data, peer.Protocols.lookup "eth" = some v → marshalIndent v "  " "  " = .ok data →
      peerSection marshalIndent i peer =
        peerHead i peer ++ ("  ETH Protocol: " ++ data ++ "\n") ++ "\n") ∧
    (peer.Protocols.lookup "eth" = none →
      peerSection marshalIndent i peer = peerHead i peer ++ "" ++ "\n") ∧
    (∀ protocols : List (String × V),
      peerHead i { peer with Protocols := protocols } = peerHead i peer) ∧
    peerSection jsonMarshalIndent 0 peerA =
      peerHead 0 peerA ++ "  ETH Protocol: \x7b\n    \"version\": 66\n  \x7d\n" ++ "\n" ∧
    peerSection jsonMarshalIndent 1 peerB = peerHead 1 peerB ++ "\n" := by
  refine ⟨?_, ?_, ?_, ?_, rfl, rfl⟩
  · constructor
    · intro h
      rcases hl : peer.Protocols.lookup "eth" with _ | v
      · exact absurd (ethBlock_none marshalIndent peer hl) h
      · exact ⟨v, rfl⟩
    · rintro ⟨v, hv⟩
      rw [ethBlock_some marshalIndent peer v hv, String.append_assoc]
      exact append_ne_empty _ _ (by decide)
  · intro v data hv hd
    unfold peerSection
    rw [ethBlock_some marshalIndent peer v hv, hd]
  · intro hn
    unfold peerSection
    rw [ethBlock_none marshalIndent peer hn]
  · intro protocols
    rfl

/-- C7, as stated, fails. The `eth` entry of `peerChan` cannot be encoded;
`displayPeers` writes the label with nothing after it, the text does not show
the error, it is the text written for a payload that fails with another error,
and the cycle logs nothing. -/
theorem encoding_error_not_reported :
    jsonMarshalIndent .chan "  " "  " = .error (.base "json: unsupported type: chan int") ∧
    jsonMarshalIndent .func "  " "  " = .error (.base "json: unsupported type: func()") ∧
    displayPeers jsonMarshalIndent noon (some [peerChan]) =
      "\n=== Connected Peers at 2024-05-01 12:00:00 ===\n" ++
      "Total Peers: 1\n\n" ++
      "Peer 1:\n  ID: a1\n  Name: Geth/v1.13.0\n  Remote Address: 203.0.113.5:30303\n" ++
      "  Capabilities: [eth/66 snap/1]\n" ++
      "  ETH Protocol: \n\n" ++
      "================================\n" ∧
    ¬ occursIn "json: unsupported type: chan int"
      (displayPeers jsonMarshalIndent noon (some [peerChan])) ∧
    ¬ occursIn "unsupported" (displayPeers jsonMarshalIndent noon (some [peerChan])) ∧
    displayPeers jsonMarshalIndent noon (some [peerFunc]) =
      displayPeers jsonMarshalIndent noon (some [peerChan]) ∧
    (loopBody jsonMarshalIndent chanClient noon fivePeers).log = [] := by
  refine ⟨rfl, rfl, rfl, ?_, ?_, rfl, rfl⟩
  · decide
  · decide

/-- C7, amended. When encoding the `eth` payload of a peer fails, `displayPeers`
discards the error: the block of that peer is the label `ETH Protocol:` with an
empty payload, whatever the error, and a cycle that got a snapshot leaves the
log as it was. -/
theorem encoding_error_discarded {V : Type} (marshalIndent : Marshal V) (i : Nat)
    (peer : PeerInfo V) (v : V) (err : GoError)
    (hkey : peer.Protocols.lookup "eth" = some v)
    (herr : marshalIndent v "  " "  " = .error err) :
    ethBlock marshalIndent peer = "  ETH Protocol: \n" ∧
    peerSection marshalIndent i peer = peerHead i peer ++ "  ETH Protocol: \n" ++ "\n" ∧
    ∀ (client : Client V) (now : String) (m : Monitor) (peers : Slice (PeerInfo V)),
      getPeers client = (peers, none) → (loopBody marshalIndent client now m).log = m.log := by
  have hb : ethBlock marshalIndent peer = "  ETH Protocol: \n" := by
    rw [ethBlock_some marshalIndent peer v hkey, herr]
    rfl
  refine ⟨hb, ?_, ?_⟩
  · unfold peerSection
    rw [hb]
  · intro client now m peers h
    rw [loopBody_ok _ _ _ _ peers h]

/-- The scenario of C7: the channel in `peerChan`. -/
theorem encoding_error_discarded_witness :
    ethBlock jsonMarshalIndent peerChan = "  ETH Protocol: \n" :=
  (encoding_error_discarded jsonMarshalIndent 0 peerChan .chan
    (.base "json: unsupported type: chan int") rfl rfl).1

/-- C8. A payload that cannot be encoded touches only the section of its own
peer. Two snapshots that differ at most in record `k` (one in which the payload
of `k` fails to encode, one in which it encodes) are rendered with the same
header, total and closing line and with the same section at every other
position; every record, the failing one too, gets the section of its own
position. -/
theorem formatting_failure_isolated {V : Type} (marshalIndent : Marshal V) (timestamp : String)
    (peers peers' : Slice (PeerInfo V)) (k : Nat)
    (hlen : len peers = len peers')
    (hsame : ∀ j, j ≠ k → (elems peers)[j]? = (elems peers')[j]?) :
    displayPeers marshalIndent timestamp peers =
      headerLine timestamp ++ totalLine (len peers) ++
        String.join (peerSections marshalIndent (elems peers)) ++ closingLine ∧
    displayPeers marshalIndent timestamp peers' =
      headerLine timestamp ++ totalLine (len peers) ++
        String.join (peerSections marshalIndent (elems peers')) ++ closingLine ∧
    (peerSections marshalIndent (elems peers)).length = len peers ∧
    (peerSections marshalIndent (elems peers')).length = len peers ∧
    (∀ j, j ≠ k →
      (peerSections marshalIndent (elems peers))[j]? =
        (peerSections marshalIndent (elems peers'))[j]?) ∧
    (∀ j peer, (elems peers)[j]? = some peer →
      (peerSections marshalIndent (elems peers))[j]? = some (peerSection marshalIndent j peer)) := by
  refine ⟨displayPeers_eq _ _ _, ?_, ?_, ?_, ?_, ?_⟩
  · rw [hlen]
    exact displayPeers_eq _ _ _
  · rw [peerSections_length, len_eq_length]
  · rw [peerSections_length, hlen, len_eq_length]
  · intro j hj
    rw [peerSections_getElem?, peerSections_getElem?, hsame j hj]
  · intro j peer hp
    rw [peerSections_getElem?, hp]
    rfl

/-- The scenario of C8: the second of three peers has a payload that cannot be
encoded; the first and the third section are those of the snapshot in which it
can. -/
theorem formatting_failure_isolated_witness :
    (peerSections jsonMarshalIndent [peerA, peerChan, peerC])[0]? =
      (peerSections jsonMarshalIndent [peerA, peerA, peerC])[0]? ∧
    (peerSections jsonMarshalIndent [peerA, peerChan, peerC])[2]? =
      (peerSections jsonMarshalIndent [peerA, peerA, peerC])[2]? :=
  have h := (formatting_failure_isolated jsonMarshalIndent noon
    (some [peerA, peerChan, peerC]) (some [peerA, peerA, peerC]) 1 rfl
    (fun j hj =>
      match j, hj with
      | 0, _ => rfl
      | 1, hj => absurd rfl hj
      | _ + 2, _ => rfl)).2.2.2.2.1
  ⟨h 0 (by decide), h 2 (by decide)⟩

end PeerMonitor
